import Mathlib

/-!
Shallow embedding of the evaluation and matching engine of the pfinance
repository (ml-service/eval_runner.py and
ml-service/scripts/update_benchmark_snapshot.py), together with proofs of the
specification claims about it.

Modelling conventions:
* Python floats are modelled as exact rationals.
* Python strings are modelled as Lean strings; the character classes used by
  the source (str.lower, str.strip, regex word characters and whitespace) are
  modelled at ASCII precision, which covers every value the claims range over.
* A Python value that may be None is modelled as an Option.
-/

attribute [local semireducible] Rat.add Rat.mul Rat.inv Rat.sub Rat.ofScientific

/-- Python str.strip: drop leading and trailing whitespace characters. -/
def pyStrip (cs : List Char) : List Char :=
  ((cs.dropWhile Char.isWhitespace).reverse.dropWhile Char.isWhitespace).reverse

/-- Helper for collapseWS: the flag records whether the previous character
was part of a whitespace run already emitted as one space. -/
def collapseWSAux : Bool → List Char → List Char
  | _, [] => []
  | prevWS, c :: rest =>
    if c.isWhitespace then
      if prevWS then collapseWSAux true rest
      else ' ' :: collapseWSAux true rest
    else c :: collapseWSAux false rest

/-- Embeds re.sub of one-or-more whitespace by a single space: every maximal
run of whitespace characters is replaced by one space. -/
def collapseWS (cs : List Char) : List Char :=
  collapseWSAux false cs

/-- Regex word character (the source's backslash-w), at ASCII precision:
alphanumeric or underscore. -/
def isWordChar (c : Char) : Bool :=
  c.isAlphanum || c == '_'

/-- normalize_text (eval_runner.py lines 80-88): lowercase, strip, collapse
whitespace runs to single spaces, and remove characters that are neither word
characters nor whitespace.  Falsy (empty) input yields the empty string. -/
def normalize_text (text : String) : String :=
  if text = "" then ""
  else
    let t1 := pyStrip (text.data.map Char.toLower)
    let t2 := collapseWS t1
    String.mk (t2.filter (fun c => isWordChar c || c.isWhitespace))

/-- Helper for pyTokens: accumulates the current token in reverse while
scanning, emitting it at each whitespace boundary. -/
def splitWSGo : List Char → List Char → List (List Char)
  | acc, [] => if acc.isEmpty then [] else [acc.reverse]
  | acc, c :: rest =>
    if c.isWhitespace then
      if acc.isEmpty then splitWSGo [] rest
      else acc.reverse :: splitWSGo [] rest
    else splitWSGo (c :: acc) rest

/-- Python str.split with no argument: split on whitespace runs, yielding
no empty pieces. -/
def pyTokens (s : String) : List String :=
  (splitWSGo [] s.data).map String.mk

/-- The token set of a string (Python set(s.split())). -/
def tokenSet (s : String) : Finset String :=
  (pyTokens s).toFinset

/-- Whether the first list is an initial segment of the second. -/
def startsWithL : List Char → List Char → Bool
  | [], _ => true
  | _ :: _, [] => false
  | a :: as, b :: bs => a == b && startsWithL as bs

/-- Python substring test (needle in hay). -/
def hasSubstr (needle hay : List Char) : Bool :=
  match hay with
  | [] => needle.isEmpty
  | _ :: rest => startsWithL needle hay || hasSubstr needle rest

/-- fuzzy_match_score (eval_runner.py lines 91-116): normalize both inputs,
then 0 if either is empty, 1 on equality, 9/10 if one contains the other, and
otherwise the Jaccard similarity of the whitespace token sets. -/
def fuzzy_match_score (pred truth : String) : ℚ :=
  let p := normalize_text pred
  let t := normalize_text truth
  if p = "" ∨ t = "" then 0
  else if p = t then 1
  else if hasSubstr p.data t.data || hasSubstr t.data p.data then 9/10
  else
    let pt := tokenSet p
    let tt := tokenSet t
    if pt = ∅ ∨ tt = ∅ then 0
    else ((pt ∩ tt).card : ℚ) / ((pt ∪ tt).card : ℚ)

/-! ## Date normalization (eval_runner.py lines 119-142)

normalize_date tries datetime.strptime against a fixed, ordered list of
format strings and rewrites the first successful parse to YYYY-MM-DD.
strptime is modelled at the precision the source exercises: each format
becomes a parser over the character list built from the regular-expression
classes strptime uses (a four-digit year, a one-or-two digit day in 1..31,
a one-or-two digit month in 1..12, literal separators, whitespace runs for
a space in the format, and case-insensitive month names), with the same
alternative order and backtracking as the regex, a full-input match
requirement, and calendar validation (month lengths, leap years) that on
failure falls through to the next format. -/

/-- A parsed calendar date. -/
structure PDate where
  year : ℕ
  month : ℕ
  day : ℕ
deriving DecidableEq

/-- Gregorian leap-year rule, as used by Python's datetime validation. -/
def isLeapYear (y : ℕ) : Bool :=
  (y % 4 == 0 && y % 100 != 0) || y % 400 == 0

/-- Number of days in a month, as used by Python's datetime validation. -/
def daysInMonth (y m : ℕ) : ℕ :=
  if m = 2 then (if isLeapYear y then 29 else 28)
  else if m = 4 ∨ m = 6 ∨ m = 9 ∨ m = 11 then 30
  else 31

/-- datetime construction: validates the parsed numbers, None on failure. -/
def checkDate : ℕ × ℕ × ℕ → Option PDate
  | (y, m, d) =>
    if 1 ≤ y ∧ 1 ≤ m ∧ m ≤ 12 ∧ 1 ≤ d ∧ d ≤ daysInMonth y m then
      some ⟨y, m, d⟩
    else none

/-- Numeric value of a decimal digit character. -/
def digitVal (c : Char) : ℕ := c.toNat - 48

/-- strptime year directive: exactly four decimal digits. -/
def takeYear4 : List Char → Option (ℕ × List Char)
  | a :: b :: c :: d :: rest =>
    if a.isDigit && b.isDigit && c.isDigit && d.isDigit then
      some (digitVal a * 1000 + digitVal b * 100 + digitVal c * 10 + digitVal d, rest)
    else none
  | _ => none

/-- Two decimal digits whose value lies in the closed range given; this is
the two-digit half of the strptime day and month character classes. -/
def take2Num (lo hi : ℕ) : List Char → Option (ℕ × List Char)
  | a :: b :: rest =>
    if a.isDigit && b.isDigit then
      let v := digitVal a * 10 + digitVal b
      if lo ≤ v ∧ v ≤ hi then some (v, rest) else none
    else none
  | _ => none

/-- One decimal digit in 1..9; the one-digit half of the strptime day and
month character classes. -/
def take1Num : List Char → Option (ℕ × List Char)
  | c :: rest =>
    if c.isDigit && digitVal c ≥ 1 then some (digitVal c, rest) else none
  | _ => none

/-- A literal character of the format string. -/
def litC (c : Char) : List Char → Option (List Char)
  | d :: rest => if d == c then some rest else none
  | _ => none

/-- Whitespace in a strptime format string matches a run of one or more
whitespace characters. -/
def wsRun : List Char → Option (List Char)
  | c :: rest =>
    if c.isWhitespace then some (rest.dropWhile Char.isWhitespace) else none
  | _ => none

/-- Case-insensitive match of a known name at the head of the input. -/
def stripNameCI : List Char → List Char → Option (List Char)
  | [], rest => some rest
  | _ :: _, [] => none
  | n :: ns, c :: cs => if c.toLower == n then stripNameCI ns cs else none

/-- First month name (already lowercase) matching a head of the input,
together with its month number. -/
def takeMonthName : List (List Char × ℕ) → List Char → Option (ℕ × List Char)
  | [], _ => none
  | (nm, v) :: rest, cs =>
    match stripNameCI nm cs with
    | some r => some (v, r)
    | none => takeMonthName rest cs

/-- Abbreviated month names for the strptime b directive (C locale). -/
def monthAbb : List (List Char × ℕ) :=
  [("jan".data, 1), ("feb".data, 2), ("mar".data, 3), ("apr".data, 4),
   ("may".data, 5), ("jun".data, 6), ("jul".data, 7), ("aug".data, 8),
   ("sep".data, 9), ("oct".data, 10), ("nov".data, 11), ("dec".data, 12)]

/-- Full month names for the strptime B directive (C locale). -/
def monthFull : List (List Char × ℕ) :=
  [("january".data, 1), ("february".data, 2), ("march".data, 3),
   ("april".data, 4), ("may".data, 5), ("june".data, 6), ("july".data, 7),
   ("august".data, 8), ("september".data, 9), ("october".data, 10),
   ("november".data, 11), ("december".data, 12)]

/-- Format Y-m-d (ISO). -/
def fmtYMDdash (cs : List Char) : Option (ℕ × ℕ × ℕ) := do
  let (y, r1) ← takeYear4 cs
  let r2 ← litC '-' r1
  let dayEnd := fun (m : ℕ) (r4 : List Char) =>
    (do let (d, r5) ← take2Num 1 31 r4
        if r5 = [] then pure (y, m, d) else none) <|>
    (do let (d, r5) ← take1Num r4
        if r5 = [] then pure (y, m, d) else none)
  (do let (m, r3) ← take2Num 1 12 r2
      let r4 ← litC '-' r3
      dayEnd m r4) <|>
  (do let (m, r3) ← take1Num r2
      let r4 ← litC '-' r3
      dayEnd m r4)

/-- Format d/m/Y (day-first slash). -/
def fmtDMYslash (cs : List Char) : Option (ℕ × ℕ × ℕ) :=
  let monthEnd := fun (d : ℕ) (r2 : List Char) =>
    let yearEnd := fun (m : ℕ) (r4 : List Char) => do
      let r5 ← litC '/' r4
      let (y, r6) ← takeYear4 r5
      if r6 = [] then pure (y, m, d) else none
    (do let (m, r3) ← take2Num 1 12 r2
        yearEnd m r3) <|>
    (do let (m, r3) ← take1Num r2
        yearEnd m r3)
  (do let (d, r1) ← take2Num 1 31 cs
      let r2 ← litC '/' r1
      monthEnd d r2) <|>
  (do let (d, r1) ← take1Num cs
      let r2 ← litC '/' r1
      monthEnd d r2)

/-- Format m/d/Y (month-first slash). -/
def fmtMDYslash (cs : List Char) : Option (ℕ × ℕ × ℕ) :=
  let dayEnd := fun (m : ℕ) (r2 : List Char) =>
    let yearEnd := fun (d : ℕ) (r4 : List Char) => do
      let r5 ← litC '/' r4
      let (y, r6) ← takeYear4 r5
      if r6 = [] then pure (y, m, d) else none
    (do let (d, r3) ← take2Num 1 31 r2
        yearEnd d r3) <|>
    (do let (d, r3) ← take1Num r2
        yearEnd d r3)
  (do let (m, r1) ← take2Num 1 12 cs
      let r2 ← litC '/' r1
      dayEnd m r2) <|>
  (do let (m, r1) ← take1Num cs
      let r2 ← litC '/' r1
      dayEnd m r2)

/-- Format Y/m/d (ISO slash). -/
def fmtYMDslash (cs : List Char) : Option (ℕ × ℕ × ℕ) := do
  let (y, r1) ← takeYear4 cs
  let r2 ← litC '/' r1
  let dayEnd := fun (m : ℕ) (r4 : List Char) =>
    (do let (d, r5) ← take2Num 1 31 r4
        if r5 = [] then pure (y, m, d) else none) <|>
    (do let (d, r5) ← take1Num r4
        if r5 = [] then pure (y, m, d) else none)
  (do let (m, r3) ← take2Num 1 12 r2
      let r4 ← litC '/' r3
      dayEnd m r4) <|>
  (do let (m, r3) ← take1Num r2
      let r4 ← litC '/' r3
      dayEnd m r4)

/-- Format d-m-Y (day-first dash). -/
def fmtDMYdash (cs : List Char) : Option (ℕ × ℕ × ℕ) :=
  let monthEnd := fun (d : ℕ) (r2 : List Char) =>
    let yearEnd := fun (m : ℕ) (r4 : List Char) => do
      let r5 ← litC '-' r4
      let (y, r6) ← takeYear4 r5
      if r6 = [] then pure (y, m, d) else none
    (do let (m, r3) ← take2Num 1 12 r2
        yearEnd m r3) <|>
    (do let (m, r3) ← take1Num r2
        yearEnd m r3)
  (do let (d, r1) ← take2Num 1 31 cs
      let r2 ← litC '-' r1
      monthEnd d r2) <|>
  (do let (d, r1) ← take1Num cs
      let r2 ← litC '-' r1
      monthEnd d r2)

/-- Formats d b Y and d B Y (day, month name, four-digit year, separated by
whitespace runs), parameterized by the month-name table. -/
def fmtDMonY (names : List (List Char × ℕ)) (cs : List Char) : Option (ℕ × ℕ × ℕ) :=
  let monthEnd := fun (d : ℕ) (r1 : List Char) => do
    let r2 ← wsRun r1
    let (m, r3) ← takeMonthName names r2
    let r4 ← wsRun r3
    let (y, r5) ← takeYear4 r4
    if r5 = [] then pure (y, m, d) else none
  (do let (d, r1) ← take2Num 1 31 cs
      monthEnd d r1) <|>
  (do let (d, r1) ← take1Num cs
      monthEnd d r1)

/-- The ordered format list of normalize_date: the first format that both
parses and validates as a calendar date wins. -/
def firstParse (cs : List Char) : Option PDate :=
  (fmtYMDdash cs >>= checkDate) <|>
  (fmtDMYslash cs >>= checkDate) <|>
  (fmtMDYslash cs >>= checkDate) <|>
  (fmtYMDslash cs >>= checkDate) <|>
  (fmtDMYdash cs >>= checkDate) <|>
  (fmtDMonY monthAbb cs >>= checkDate) <|>
  (fmtDMonY monthFull cs >>= checkDate)

/-- Decimal digit character for a value in 0..9. -/
def digitChar (n : ℕ) : Char := Char.ofNat (48 + n)

/-- Two-digit zero-padded decimal rendering (strftime m and d). -/
def pad2 (n : ℕ) : String :=
  String.mk [digitChar (n / 10 % 10), digitChar (n % 10)]

/-- Four-digit zero-padded decimal rendering (strftime Y, for the four-digit
years the parsers produce). -/
def pad4 (n : ℕ) : String :=
  String.mk [digitChar (n / 1000 % 10), digitChar (n / 100 % 10),
             digitChar (n / 10 % 10), digitChar (n % 10)]

/-- strftime to the canonical YYYY-MM-DD form. -/
def fmtISO (d : PDate) : String :=
  pad4 d.year ++ "-" ++ pad2 d.month ++ "-" ++ pad2 d.day

/-- normalize_date (eval_runner.py lines 119-142) on a string input: falsy
(empty) input yields None; otherwise the stripped input is tried against the
ordered format list, the first success is rewritten to YYYY-MM-DD, and if no
format parses the input is returned unchanged. -/
def normalize_date (dateStr : String) : Option String :=
  if dateStr = "" then none
  else
    match firstParse (pyStrip dateStr.data) with
    | some d => some (fmtISO d)
    | none => some dateStr

/-- normalize_date on a possibly-None input: None propagates, through the
same falsy check that maps the empty string to None. -/
def normalize_date_opt (dateStr : Option String) : Option String :=
  match dateStr with
  | none => none
  | some s => normalize_date s

/-! ## Amount normalization (eval_runner.py lines 145-161) -/

/-- A JSON amount value as the source receives it: a number or a string. -/
inductive AmtVal where
  | num (q : ℚ)
  | str (s : String)
deriving DecidableEq

/-- Value of a nonempty list of decimal digits. -/
def digitsVal (cs : List Char) : ℕ :=
  cs.foldl (fun acc c => acc * 10 + digitVal c) 0

/-- Python float() applied to a string containing only digits, dots and
minus signs (the residue of the cleaning regex): an optional leading minus,
then digits with at most one dot and at least one digit. -/
def parseFloatChars (cs : List Char) : Option ℚ :=
  let (neg, body) :=
    match cs with
    | '-' :: r => (true, r)
    | r => (false, r)
  if body.isEmpty then none
  else if body.any (fun c => !(c.isDigit || c == '.')) then none
  else
    let intPart := body.takeWhile (fun c => c != '.')
    let rest := body.dropWhile (fun c => c != '.')
    match rest with
    | [] =>
      some ((if neg then -1 else 1) * (digitsVal intPart : ℚ))
    | _ :: fracPart =>
      if fracPart.any (fun c => c == '.') then none
      else if intPart.isEmpty ∧ fracPart.isEmpty then none
      else
        some ((if neg then -1 else 1) *
          ((digitsVal intPart : ℚ) + (digitsVal fracPart : ℚ) / (10 ^ fracPart.length)))

/-- normalize_amount (eval_runner.py lines 145-161): None passes through,
numbers pass through as floats, and a string is stripped of every character
other than digits, dot and minus and then parsed, with None on failure. -/
def normalize_amount (amount : Option AmtVal) : Option ℚ :=
  match amount with
  | none => none
  | some (.num q) => some q
  | some (.str s) =>
    parseFloatChars (s.data.filter (fun c => c.isDigit || c == '.' || c == '-'))

/-! ## Amount reconciliation cascade (eval_runner.py lines 195-229)

The cascade works on the absolute values of the two normalized amounts and
is evaluated in source order; the error starts at the raw absolute
difference and is overwritten by the scale rules.  The +infinity sentinel
the source assigns before the None check is modelled by an Option: the
cascade is entered only when both amounts are non-None, in which case every
error it produces is a finite rational. -/

/-- Default value of the matcher's amount_tolerance_pct parameter. -/
def amount_tolerance_pct : ℚ := 1/100

/-- The tolerance cascade on the absolute values of two non-None amounts,
returning the match flag and the error. -/
def amountCascade (pred_abs gt_abs : ℚ) : Bool × ℚ :=
  let e0 := |pred_abs - gt_abs|
  if |pred_abs - gt_abs| < 1/100 then (true, e0)
  else if gt_abs ≠ 0 ∧ |pred_abs - gt_abs| / gt_abs < amount_tolerance_pct then (true, e0)
  else if |pred_abs - gt_abs * 100| < 1/100 then (true, |pred_abs / 100 - gt_abs|)
  else if |pred_abs * 100 - gt_abs| < 1/100 then (true, |pred_abs - gt_abs / 100|)
  else if gt_abs > 1000 ∧ |pred_abs * 1000 - gt_abs| / gt_abs < 1/100 then
    (true, |pred_abs - gt_abs / 1000|)
  else if pred_abs > 1000 ∧ |pred_abs - gt_abs * 1000| / pred_abs < 1/100 then
    (true, |pred_abs / 1000 - gt_abs|)
  else if gt_abs > 100 ∧ pred_abs < 1000 then
    if ([2, 3, 4, 5, 10] : List ℚ).any
        (fun mult => decide (|pred_abs * mult * 1000 - gt_abs| / gt_abs < 1/20)) then
      (true, 0)
    else (false, e0)
  else (false, e0)

/-- Amount reconciliation including the None check: when either side is
None the flag is false and the error is the +infinity sentinel (None);
otherwise the cascade runs on the absolute values. -/
def reconcileAmounts (pred_amt gt_amt : Option ℚ) : Bool × Option ℚ :=
  match pred_amt, gt_amt with
  | some p, some g =>
    let r := amountCascade |p| |g|
    (r.1, some r.2)
  | _, _ => (false, none)

/-! ## Transaction records and field resolution (eval_runner.py lines 174-188)

A transaction record is a JSON mapping with optional fields.  For each field
the source distinguishes three cases: the key is absent (dict.get falls back
to the default or the synonym field), the key holds null, or the key holds a
value.  Where the source treats an absent key and a null value identically
(date, merchant, total) the model collapses them into a single Option; for
description and amount a null value blocks the synonym fallback, so those
fields use a nested Option whose outer layer is key presence. -/

/-- A transaction record, restricted to the fields the matcher reads. -/
structure Txn where
  /-- The date field; none models both an absent key and a null value,
  which the source maps to the same parsed result. -/
  date : Option String := none
  /-- The description field: none = key absent (fall back to merchant),
  some none = null (no fallback), some (some s) = a string. -/
  description : Option (Option String) := none
  /-- The merchant field; none models both an absent key and a null value,
  which normalize_text maps to the same empty string. -/
  merchant : Option String := none
  /-- The amount field: none = key absent (fall back to total),
  some none = null (no fallback), some (some v) = a value. -/
  amount : Option (Option AmtVal) := none
  /-- The total field; none models both an absent key and a null value,
  which normalize_amount maps to None either way. -/
  total : Option AmtVal := none
deriving DecidableEq

/-- The string the date lookup produces: dict.get of date with default
empty string. -/
def dateField (t : Txn) : String := t.date.getD ""

/-- The description string the matcher compares: dict.get of description
with dict.get of merchant (default empty string) as the default; a null
description reaches normalize_text directly, which renders it as the empty
string. -/
def descStr (t : Txn) : String :=
  match t.description with
  | none => t.merchant.getD ""
  | some none => ""
  | some (some s) => s

/-- The amount value the matcher normalizes: dict.get of amount with
dict.get of total as the default. -/
def resolveAmt (t : Txn) : Option AmtVal :=
  match t.amount with
  | none => t.total
  | some v => v

/-- The normalized date of a record as the matcher computes it. -/
def txnNormDate (t : Txn) : Option String := normalize_date (dateField t)

/-- The normalized amount of a record as the matcher computes it. -/
def txnAmt (t : Txn) : Option ℚ := normalize_amount (resolveAmt t)

/-- Python truthiness of an optional string: false for None and for the
empty string. -/
def truthyS (x : Option String) : Bool :=
  match x with
  | none => false
  | some s => s ≠ ""

/-- The matcher's date comparison (eval_runner.py line 191): equality of
the two normalized dates when both are truthy, false otherwise. -/
def dateMatchB (pd gd : Option String) : Bool :=
  if truthyS pd && truthyS gd then pd == gd else false

/-- Date comparison between two records. -/
def dateMatchOf (pred gt : Txn) : Bool :=
  dateMatchB (txnNormDate pred) (txnNormDate gt)

/-- Description similarity between two records. -/
def descScoreOf (pred gt : Txn) : ℚ :=
  fuzzy_match_score (descStr pred) (descStr gt)

/-- Amount reconciliation between two records. -/
def reconcileOf (pred gt : Txn) : Bool × Option ℚ :=
  reconcileAmounts (txnAmt pred) (txnAmt gt)

/-- The composite candidate score (eval_runner.py lines 232-236). -/
def candScore (pred gt : Txn) : ℚ :=
  (if dateMatchOf pred gt then 1 else 0) * (3/10) +
  descScoreOf pred gt * (4/10) +
  (if (reconcileOf pred gt).1 then 1 else 0) * (3/10)

/-! ## The greedy matcher (eval_runner.py lines 164-262) -/

/-- TransactionMatch (eval_runner.py lines 28-36).  The gtIdx field embeds
the loop bookkeeping of the source (the best_idx variable and the used_gt
index set); it is some i exactly when ground_truth is the i-th ground-truth
record. -/
structure TransactionMatch where
  predicted : Txn
  ground_truth : Option Txn := none
  gtIdx : Option ℕ := none
  date_match : Bool := false
  description_match : ℚ := 0
  amount_match : Bool := false
  amount_error : ℚ := 0
deriving DecidableEq

/-- The match result built when a candidate is committed (eval_runner.py
lines 240-247); a +infinity amount error (None) is replaced by 0. -/
def mkMatched (pred gt : Txn) (i : ℕ) : TransactionMatch :=
  { predicted := pred
    ground_truth := some gt
    gtIdx := some i
    date_match := dateMatchOf pred gt
    description_match := descScoreOf pred gt
    amount_match := (reconcileOf pred gt).1
    amount_error := ((reconcileOf pred gt).2).getD 0 }

/-- The unmatched result (eval_runner.py lines 254-260). -/
def mkUnmatched (pred : Txn) : TransactionMatch :=
  { predicted := pred
    ground_truth := none
    gtIdx := none
    date_match := false
    description_match := 0
    amount_match := false
    amount_error := 0 }

/-- Python enumerate starting from a given index. -/
def enumFrom {α : Type} (n : ℕ) : List α → List (ℕ × α)
  | [] => []
  | a :: l => (n, a) :: enumFrom (n + 1) l

/-- The inner loop over enumerated ground-truth candidates: skip consumed
indices, and commit a candidate exactly when its score is strictly above
both the running best score and the 1/2 threshold. -/
def bestLoop (pred : Txn) (used : Finset ℕ) :
    List (ℕ × Txn) → ℚ → Option (ℕ × Txn) → Option (ℕ × Txn)
  | [], _, best => best
  | (i, gt) :: rest, bestScore, best =>
    if i ∈ used then bestLoop pred used rest bestScore best
    else
      let s := candScore pred gt
      if s > bestScore ∧ s > 1/2 then bestLoop pred used rest s (some (i, gt))
      else bestLoop pred used rest bestScore best

/-- The best not-yet-consumed ground-truth candidate for one prediction. -/
def bestCandidate (pred : Txn) (gts : List Txn) (used : Finset ℕ) :
    Option (ℕ × Txn) :=
  bestLoop pred used (enumFrom 0 gts) 0 none

/-- The outer loop over predictions, threading the set of consumed
ground-truth indices. -/
def matchLoop (gts : List Txn) : List Txn → Finset ℕ → List TransactionMatch
  | [], _ => []
  | p :: ps, used =>
    match bestCandidate p gts used with
    | some (i, gt) => mkMatched p gt i :: matchLoop gts ps (insert i used)
    | none => mkUnmatched p :: matchLoop gts ps used

/-- match_transactions (eval_runner.py lines 164-262): one result per
prediction in input order, consuming each ground-truth index at most once. -/
def match_transactions (predicted ground_truth : List Txn) :
    List TransactionMatch :=
  matchLoop ground_truth predicted ∅

/-! ## Metrics aggregation (eval_runner.py lines 265-303) -/

/-- The metrics dictionary compute_metrics returns. -/
structure Metrics where
  matched_count : ℕ
  precision : ℚ
  recall' : ℚ
  f1 : ℚ
  date_accuracy : ℚ
  description_accuracy : ℚ
  amount_accuracy : ℚ
  amount_mae : ℚ
deriving DecidableEq

/-- The all-zero metrics returned for an empty matches list. -/
def zeroMetrics : Metrics :=
  { matched_count := 0, precision := 0, recall' := 0, f1 := 0,
    date_accuracy := 0, description_accuracy := 0, amount_accuracy := 0,
    amount_mae := 0 }

/-- compute_metrics (eval_runner.py lines 265-303).  Each guarded division
reproduces a truthiness guard of the source. -/
def compute_metrics (matches' : List TransactionMatch)
    (ground_truth_count : ℕ) : Metrics :=
  if matches' = [] then zeroMetrics
  else
    let matched := matches'.filter (fun m => m.ground_truth.isSome)
    let matched_count := matched.length
    let precision : ℚ :=
      if matches' ≠ [] then (matched_count : ℚ) / (matches'.length : ℚ) else 0
    let recall' : ℚ :=
      if ground_truth_count ≠ 0 then (matched_count : ℚ) / (ground_truth_count : ℚ) else 0
    let f1 : ℚ :=
      if precision + recall' > 0 then 2 * precision * recall' / (precision + recall') else 0
    let date_acc : ℚ :=
      if matched_count ≠ 0 then ((matched.countP (fun m => m.date_match)) : ℚ) / (matched_count : ℚ) else 0
    let desc_acc : ℚ :=
      if matched_count ≠ 0 then (matched.map (fun m => m.description_match)).sum / (matched_count : ℚ) else 0
    let amt_acc : ℚ :=
      if matched_count ≠ 0 then ((matched.countP (fun m => m.amount_match)) : ℚ) / (matched_count : ℚ) else 0
    let amt_mae : ℚ :=
      if matched_count ≠ 0 then (matched.map (fun m => m.amount_error)).sum / (matched_count : ℚ) else 0
    { matched_count := matched_count, precision := precision, recall' := recall',
      f1 := f1, date_accuracy := date_acc, description_accuracy := desc_acc,
      amount_accuracy := amt_acc, amount_mae := amt_mae }

/-! ## Benchmark history (scripts/update_benchmark_snapshot.py lines 61-83) -/

/-- append_history: the new entry is appended to the run list, which is then
truncated to its last 50 entries when it exceeds 50. -/
def append_history {α : Type} (runs : List α) (entry : α) : List α :=
  let r := runs ++ [entry]
  if r.length > 50 then r.drop (r.length - 50) else r

/-! ## Concrete fixtures used by witnesses and counterexamples -/

/-- A predicted transaction from the spec's worked example. -/
def exTxn : Txn :=
  { date := some "2024-01-15", description := some (some "Starbucks"),
    amount := some (some (.num (11/2))) }

/-- The matching ground-truth transaction of the worked example. -/
def exGt : Txn :=
  { date := some "2024-01-15", description := some (some "STARBUCKS #4521"),
    amount := some (some (.num (11/2))) }

/-- A transaction whose date string is unparseable by every format. -/
def fooTxn : Txn :=
  { date := some "foo", amount := some (some (.num 5)) }

/-- The metrics the evaluation pipeline computes for a prediction list
against a ground-truth list: compute_metrics over the matcher output with
the ground-truth cardinality (eval_runner.py lines 371-372). -/
def metricsOf (preds gts : List Txn) : Metrics :=
  compute_metrics (match_transactions preds gts) gts.length

/-! ## Supporting lemmas -/

/-- fuzzy_match_score is non-negative. -/
theorem fuzzy_match_score_nonneg (p t : String) : 0 ≤ fuzzy_match_score p t := by
  simp only [fuzzy_match_score]
  split_ifs
  · norm_num
  · norm_num
  · norm_num
  · norm_num
  · exact div_nonneg (by positivity) (by positivity)

/-- fuzzy_match_score is at most 1. -/
theorem fuzzy_match_score_le_one (p t : String) : fuzzy_match_score p t ≤ 1 := by
  simp only [fuzzy_match_score]
  split_ifs with h1 h2 h3 h4
  · norm_num
  · norm_num
  · norm_num
  · norm_num
  rcases not_or.mp h4 with ⟨hp, ht⟩
  have hsub : tokenSet (normalize_text p) ∩ tokenSet (normalize_text t) ⊆
      tokenSet (normalize_text p) ∪ tokenSet (normalize_text t) :=
    Finset.inter_subset_union
  have hcard := Finset.card_le_card hsub
  have hpos : 0 < (tokenSet (normalize_text p) ∪ tokenSet (normalize_text t)).card := by
    refine Finset.card_pos.mpr ?_
    exact (Finset.nonempty_iff_ne_empty.mpr hp).mono Finset.subset_union_left
  rw [div_le_one (by exact_mod_cast hpos)]
  exact_mod_cast hcard

/-- Every error the amount cascade produces is non-negative. -/
theorem amountCascade_error_nonneg (pa ga : ℚ) : 0 ≤ (amountCascade pa ga).2 := by
  simp only [amountCascade]
  split_ifs <;> simp [abs_nonneg]

/-- Membership in enumFrom locates the element in the underlying list. -/
theorem mem_enumFrom {α : Type} :
    ∀ (l : List α) (n i : ℕ) (a : α), (i, a) ∈ enumFrom n l →
      ∃ k, i = n + k ∧ ∃ h : k < l.length, l.get ⟨k, h⟩ = a := by
  intro l
  induction l with
  | nil => intro n i a h; simp [enumFrom] at h
  | cons hd tl ih =>
    intro n i a h
    simp only [enumFrom, List.mem_cons] at h
    rcases h with h | h
    · obtain ⟨hi, ha⟩ := Prod.mk.injEq .. ▸ h
      refine ⟨0, by omega, by simp, ?_⟩
      simp [← ha]
    · obtain ⟨k, hk, hlt, hget⟩ := ih (n + 1) i a h
      refine ⟨k + 1, by omega, by simp; omega, ?_⟩
      simpa using hget

/-- A committed result of the inner candidate loop is either the initial
best value or an unconsumed element of the candidate list. -/
theorem bestLoop_some (pred : Txn) (used : Finset ℕ) :
    ∀ (l : List (ℕ × Txn)) (bs : ℚ) (b : Option (ℕ × Txn)) (i : ℕ) (gt : Txn),
      bestLoop pred used l bs b = some (i, gt) →
      ((i, gt) ∈ l ∧ i ∉ used) ∨ b = some (i, gt) := by
  intro l
  induction l with
  | nil => intro bs b i gt h; simp [bestLoop] at h; right; rw [h]
  | cons hd tl ih =>
    intro bs b i gt h
    obtain ⟨j, g⟩ := hd
    simp only [bestLoop] at h
    split_ifs at h with hju hs
    · rcases ih _ _ _ _ h with ⟨hm, hnu⟩ | hb
      · exact Or.inl ⟨List.mem_cons_of_mem _ hm, hnu⟩
      · exact Or.inr hb
    · rcases ih _ _ _ _ h with ⟨hm, hnu⟩ | hb
      · exact Or.inl ⟨List.mem_cons_of_mem _ hm, hnu⟩
      · left
        obtain ⟨hj, hg⟩ := Prod.mk.injEq .. ▸ (Option.some.injEq .. ▸ hb)
        subst hj; subst hg
        exact ⟨List.mem_cons_self _ _, hju⟩
    · rcases ih _ _ _ _ h with ⟨hm, hnu⟩ | hb
      · exact Or.inl ⟨List.mem_cons_of_mem _ hm, hnu⟩
      · exact Or.inr hb

/-- A committed candidate is an unconsumed index into the ground-truth
list, paired with the record at that index. -/
theorem bestCandidate_some (pred : Txn) (gts : List Txn) (used : Finset ℕ)
    (i : ℕ) (gt : Txn) (h : bestCandidate pred gts used = some (i, gt)) :
    i ∉ used ∧ ∃ hlt : i < gts.length, gts.get ⟨i, hlt⟩ = gt := by
  rcases bestLoop_some pred used (enumFrom 0 gts) 0 none i gt h with ⟨hm, hnu⟩ | hb
  · obtain ⟨k, hk, hlt, hget⟩ := mem_enumFrom gts 0 i gt hm
    have hik : i = k := by omega
    subst hik
    exact ⟨hnu, hlt, hget⟩
  · simp at hb

/-- Master invariant of the outer matcher loop: the results are in
one-to-one order-preserving correspondence with the predictions; every
result is either the canonical unmatched record or the committed match of
an unconsumed ground-truth index; and the committed indices are distinct. -/
theorem matchLoop_spec (gts : List Txn) :
    ∀ (preds : List Txn) (used : Finset ℕ),
      (matchLoop gts preds used).length = preds.length ∧
      (matchLoop gts preds used).map (fun r => r.predicted) = preds ∧
      (∀ r ∈ matchLoop gts preds used,
        (r.gtIdx = none ∧ r = mkUnmatched r.predicted) ∨
        (∃ i, r.gtIdx = some i ∧ i ∉ used ∧
          ∃ h : i < gts.length, r = mkMatched r.predicted (gts.get ⟨i, h⟩) i)) ∧
      ((matchLoop gts preds used).filterMap (fun r => r.gtIdx)).Nodup := by
  intro preds
  induction preds with
  | nil => intro used; simp [matchLoop]
  | cons p ps ih =>
    intro used
    cases hbc : bestCandidate p gts used with
    | none =>
      obtain ⟨hlen, hmap, helem, hnd⟩ := ih used
      refine ⟨by simp [matchLoop, hbc, hlen], by simp [matchLoop, hbc, hmap, mkUnmatched], ?_, ?_⟩
      · intro r hr
        simp only [matchLoop, hbc, List.mem_cons] at hr
        rcases hr with rfl | hr
        · left; exact ⟨by simp [mkUnmatched], by simp [mkUnmatched]⟩
        · exact helem r hr
      · simpa [matchLoop, hbc, List.filterMap_cons, mkUnmatched] using hnd
    | some v =>
      obtain ⟨i, gt⟩ := v
      obtain ⟨hni, hlt, hget⟩ := bestCandidate_some p gts used i gt hbc
      obtain ⟨hlen, hmap, helem, hnd⟩ := ih (insert i used)
      refine ⟨by simp [matchLoop, hbc, hlen], by simp [matchLoop, hbc, hmap, mkMatched], ?_, ?_⟩
      · intro r hr
        simp only [matchLoop, hbc, List.mem_cons] at hr
        rcases hr with rfl | hr
        · right
          refine ⟨i, by simp [mkMatched], hni, hlt, ?_⟩
          have hpred : (mkMatched p gt i).predicted = p := by simp [mkMatched]
          rw [hpred, hget]
        · rcases helem r hr with hl | ⟨j, hj, hjni, hjlt, hjr⟩
          · exact Or.inl hl
          · exact Or.inr ⟨j, hj, fun hc => hjni (Finset.mem_insert_of_mem hc), hjlt, hjr⟩
      · have hcons : (matchLoop gts (p :: ps) used).filterMap (fun r => r.gtIdx) =
            i :: (matchLoop gts ps (insert i used)).filterMap (fun r => r.gtIdx) := by
          simp [matchLoop, hbc, List.filterMap_cons, mkMatched]
        rw [hcons, List.nodup_cons]
        refine ⟨?_, hnd⟩
        intro hmem
        obtain ⟨r, hr, hgt⟩ := List.mem_filterMap.mp hmem
        rcases helem r hr with ⟨hnone, _⟩ | ⟨j, hj, hjni, _, _⟩
        · rw [hnone] at hgt; exact Option.noConfusion hgt
        · rw [hj] at hgt
          obtain rfl := Option.some.injEq .. ▸ hgt
          exact hjni (Finset.mem_insert_self _ _)

/-- Specialization of the master invariant to match_transactions. -/
theorem match_transactions_spec (preds gts : List Txn) :
    (match_transactions preds gts).length = preds.length ∧
    (match_transactions preds gts).map (fun r => r.predicted) = preds ∧
    (∀ r ∈ match_transactions preds gts,
      (r.gtIdx = none ∧ r = mkUnmatched r.predicted) ∨
      (∃ i, r.gtIdx = some i ∧
        ∃ h : i < gts.length, r = mkMatched r.predicted (gts.get ⟨i, h⟩) i)) ∧
    ((match_transactions preds gts).filterMap (fun r => r.gtIdx)).Nodup := by
  obtain ⟨hlen, hmap, helem, hnd⟩ := matchLoop_spec gts preds ∅
  exact ⟨hlen, hmap, fun r hr => (helem r hr).imp id
    (fun ⟨i, hi, _, hrest⟩ => ⟨i, hi, hrest⟩), hnd⟩

/-- In every emitted result the ground_truth field and the index
bookkeeping field are defined together. -/
theorem match_transactions_isSome (preds gts : List Txn) :
    ∀ r ∈ match_transactions preds gts,
      r.ground_truth.isSome = r.gtIdx.isSome := by
  intro r hr
  rcases (match_transactions_spec preds gts).2.2.1 r hr with ⟨hn, hu⟩ | ⟨i, hi, _, hm⟩
  · rw [hn, hu]; simp [mkUnmatched]
  · rw [hi, hm]; simp [mkMatched]

/-- The length of a filterMap equals the count of elements on which the
function is defined. -/
theorem length_filterMap_eq_countP {α β : Type} (f : α → Option β) :
    ∀ l : List α, (l.filterMap f).length = l.countP (fun a => (f a).isSome) := by
  intro l
  induction l with
  | nil => simp
  | cons hd tl ih =>
    cases h : f hd with
    | none => simp [List.filterMap_cons, List.countP_cons, h, ih]
    | some b => simp [List.filterMap_cons, List.countP_cons, h, ih]

/-- A duplicate-free list of naturals all below a bound has length at most
that bound. -/
theorem nodup_bounded_length_le (l : List ℕ) (n : ℕ) (hnd : l.Nodup)
    (hb : ∀ i ∈ l, i < n) : l.length ≤ n := by
  have hcard : l.toFinset.card = l.length := List.toFinset_card_of_nodup hnd
  have hsub : l.toFinset ⊆ Finset.range n := by
    intro i hi
    exact Finset.mem_range.mpr (hb i (List.mem_toFinset.mp hi))
  calc l.length = l.toFinset.card := hcard.symm
    _ ≤ (Finset.range n).card := Finset.card_le_card hsub
    _ = n := Finset.card_range n

/-- The number of matched results never exceeds the number of ground-truth
records. -/
theorem matched_count_le_gt (preds gts : List Txn) :
    ((match_transactions preds gts).filter
      (fun m => m.ground_truth.isSome)).length ≤ gts.length := by
  obtain ⟨_, _, helem, hnd⟩ := match_transactions_spec preds gts
  have h1 : ((match_transactions preds gts).filter
      (fun m => m.ground_truth.isSome)).length =
      (match_transactions preds gts).countP (fun m => m.ground_truth.isSome) := by
    simp [List.countP_eq_length_filter]
  have h2 : (match_transactions preds gts).countP (fun m => m.ground_truth.isSome) =
      (match_transactions preds gts).countP (fun m => m.gtIdx.isSome) := by
    apply List.countP_congr
    intro r hr
    simp [match_transactions_isSome preds gts r hr]
  have h3 : (match_transactions preds gts).countP (fun m => m.gtIdx.isSome) =
      ((match_transactions preds gts).filterMap (fun r => r.gtIdx)).length :=
    (length_filterMap_eq_countP _ _).symm
  have h4 : ∀ i ∈ (match_transactions preds gts).filterMap (fun r => r.gtIdx),
      i < gts.length := by
    intro i hi
    obtain ⟨r, hr, hgt⟩ := List.mem_filterMap.mp hi
    rcases helem r hr with ⟨hn, _⟩ | ⟨j, hj, hlt, _⟩
    · rw [hn] at hgt; exact Option.noConfusion hgt
    · rw [hj] at hgt
      obtain rfl := Option.some.injEq .. ▸ hgt
      exact hlt
  rw [h1, h2, h3]
  exact nodup_bounded_length_le _ _ hnd h4

/-- The replaced amount error of a committed match is non-negative. -/
theorem reconcile_error_getD_nonneg (p g : Txn) :
    0 ≤ ((reconcileOf p g).2).getD 0 := by
  unfold reconcileOf reconcileAmounts
  cases txnAmt p with
  | none => simp
  | some a =>
    cases txnAmt g with
    | none => simp
    | some b => simpa using amountCascade_error_nonneg |a| |b|

/-- Every emitted result has description_match in the unit interval and a
non-negative amount_error. -/
theorem result_field_bounds (preds gts : List Txn) :
    ∀ r ∈ match_transactions preds gts,
      0 ≤ r.description_match ∧ r.description_match ≤ 1 ∧ 0 ≤ r.amount_error := by
  intro r hr
  rcases (match_transactions_spec preds gts).2.2.1 r hr with ⟨_, hu⟩ | ⟨i, _, hlt, hm⟩
  · rw [hu]; simp [mkUnmatched]
  · rw [hm]
    refine ⟨?_, ?_, ?_⟩
    · simpa [mkMatched, descScoreOf] using
        fuzzy_match_score_nonneg (descStr r.predicted) (descStr (gts.get ⟨i, hlt⟩))
    · simpa [mkMatched, descScoreOf] using
        fuzzy_match_score_le_one (descStr r.predicted) (descStr (gts.get ⟨i, hlt⟩))
    · simpa [mkMatched] using
        reconcile_error_getD_nonneg r.predicted (gts.get ⟨i, hlt⟩)

/-! ## Claim theorems -/

/-- Claim C1: match_transactions returns exactly one MatchResult per
predicted transaction, in input order, and consumes each ground-truth
record (index) at most once; the ground_truth field is populated exactly
when a ground-truth index was committed.  In particular, for two identical
predictions that both best-match a single ground-truth entry, exactly one
result is matched and the other is unmatched. -/
theorem claim1_match_shape :
    (∀ preds gts : List Txn,
      (match_transactions preds gts).length = preds.length ∧
      (match_transactions preds gts).map (fun r => r.predicted) = preds ∧
      ((match_transactions preds gts).filterMap (fun r => r.gtIdx)).Nodup ∧
      (∀ r ∈ match_transactions preds gts,
        r.ground_truth.isSome = r.gtIdx.isSome)) ∧
    (match_transactions [exTxn, exTxn] [exTxn]).map
      (fun r => (r.ground_truth.isSome, r.gtIdx)) = [(true, some 0), (false, none)] := by
  constructor
  · intro preds gts
    obtain ⟨h1, h2, _, h4⟩ := match_transactions_spec preds gts
    exact ⟨h1, h2, h4, match_transactions_isSome preds gts⟩
  · decide

/-- Witness for C1: the committed result of the duplicate-prediction
scenario satisfies the ground-truth-presence bookkeeping equation. -/
theorem claim1_witness :
    (mkMatched exTxn exTxn 0).ground_truth.isSome =
    (mkMatched exTxn exTxn 0).gtIdx.isSome :=
  (claim1_match_shape.1 [exTxn, exTxn] [exTxn]).2.2.2 _ (by decide)

/-- The matcher's date flag is true exactly when both normalized dates are
truthy (non-None, nonempty) and equal. -/
theorem dateMatchB_eq_true_iff (pd gd : Option String) :
    dateMatchB pd gd = true ↔
      truthyS pd = true ∧ truthyS gd = true ∧ pd = gd := by
  unfold dateMatchB
  split_ifs with h
  · rw [Bool.and_eq_true] at h
    simp [h, beq_iff_eq]
  · rw [Bool.and_eq_true] at h
    constructor
    · intro hf; exact absurd hf (by simp)
    · rintro ⟨h1, h2, _⟩; exact absurd ⟨h1, h2⟩ h

/-- Claim C2 counterexample: the reconciliation match flag is not
symmetric.  Amount 1 against ground truth 2000 matches through the
unit-versus-total multiplier heuristic, but amount 2000 against ground
truth 1 matches no rule. -/
theorem claim2_counterexample :
    (reconcileAmounts (some 1) (some 2000)).1 = true ∧
    (reconcileAmounts (some 2000) (some 1)).1 = false := by decide

/-- Claim C2, amended: the match flag is symmetric on the tight
absolute-tolerance tier — whenever the absolute values of the two amounts
are within 0.01 of each other, both orders report a match.  In general the
flag is directional (the relative-tolerance and scale and unit heuristics
are one-sided). -/
theorem claim2_absolute_flag_symm (a b : ℚ) (h : |(|a| - |b|)| < 1/100) :
    (reconcileAmounts (some a) (some b)).1 = true ∧
    (reconcileAmounts (some b) (some a)).1 = true := by
  have h' : |(|b| - |a|)| < 1/100 := by rwa [abs_sub_comm]
  constructor
  · simp only [reconcileAmounts, amountCascade]
    rw [if_pos h]
  · simp only [reconcileAmounts, amountCascade]
    rw [if_pos h']

/-- Witness for the amended C2 at amounts 5 and 5.005. -/
theorem claim2_witness :
    (reconcileAmounts (some 5) (some (1001/200))).1 = true ∧
    (reconcileAmounts (some (1001/200)) (some 5)).1 = true :=
  claim2_absolute_flag_symm 5 (1001/200) (by decide)

/-- Claim C3 counterexample: a matched result can carry date_match = true
although neither date string parses under any format — the date "foo" on
both sides is returned unchanged by normalize_date, is truthy, and
compares equal. -/
theorem claim3_counterexample :
    (match_transactions [fooTxn] [fooTxn]).map
      (fun r => (r.ground_truth.isSome, r.date_match)) = [(true, true)] ∧
    firstParse (pyStrip ("foo".data)) = none := by decide

/-- Claim C3, amended: the date_match flag of an emitted result is true
exactly when the result is matched and both its sides' normalize_date
outputs are truthy (non-None and nonempty — canonical YYYY-MM-DD when a
format parsed, the raw string otherwise) and string-equal; in particular
whenever either side's date is None or empty, date_match is false. -/
theorem claim3_date_flag_iff (preds gts : List Txn) :
    ∀ r ∈ match_transactions preds gts,
      (r.date_match = true ↔
        ∃ g, r.ground_truth = some g ∧
          truthyS (txnNormDate r.predicted) = true ∧
          truthyS (txnNormDate g) = true ∧
          txnNormDate r.predicted = txnNormDate g) := by
  intro r hr
  rcases (match_transactions_spec preds gts).2.2.1 r hr with ⟨_, hu⟩ | ⟨i, _, hlt, hm⟩
  · rw [hu]
    simp [mkUnmatched]
  · rw [hm]
    simp only [mkMatched, Option.some.injEq]
    constructor
    · intro hd
      refine ⟨gts.get ⟨i, hlt⟩, rfl, ?_⟩
      have := (dateMatchB_eq_true_iff (txnNormDate r.predicted)
        (txnNormDate (gts.get ⟨i, hlt⟩))).mp (by simpa [dateMatchOf] using hd)
      exact ⟨this.1, this.2.1, this.2.2⟩
    · rintro ⟨g, rfl, h1, h2, h3⟩
      exact (dateMatchB_eq_true_iff _ _).mpr ⟨h1, h2, h3⟩

/-- Witness for the amended C3: the worked example's committed result has
date_match true, derived through the characterization. -/
theorem claim3_witness : (mkMatched exTxn exGt 0).date_match = true :=
  (claim3_date_flag_iff [exTxn] [exGt] _ (by decide)).mpr
    ⟨exGt, by decide, by decide, by decide, by decide⟩

/-- Claim C4: compute_metrics of an empty matches list is all-zero for any
ground-truth count; a zero ground-truth count gives recall 0 through the
truthiness guard rather than a division error; and f1 is 0 whenever
precision + recall is 0. -/
theorem claim4_compute_metrics_degenerate :
    (∀ n : ℕ, compute_metrics [] n = zeroMetrics) ∧
    (∀ ms : List TransactionMatch, (compute_metrics ms 0).recall' = 0) ∧
    (∀ (ms : List TransactionMatch) (n : ℕ),
      (compute_metrics ms n).precision + (compute_metrics ms n).recall' = 0 →
      (compute_metrics ms n).f1 = 0) := by
  refine ⟨?_, ?_, ?_⟩
  · intro n; simp [compute_metrics]
  · intro ms
    by_cases h : ms = []
    · subst h; simp [compute_metrics, zeroMetrics]
    · simp [compute_metrics, h]
  · intro ms n hpr
    by_cases h : ms = []
    · subst h; simp [compute_metrics, zeroMetrics]
    · simp only [compute_metrics, h, if_neg, if_false, ne_eq,
        not_false_eq_true, if_true] at hpr ⊢
      rw [hpr]
      simp

/-- Witness for C4 at the empty list and ground-truth count 0. -/
theorem claim4_witness : (compute_metrics [] 0).f1 = 0 :=
  claim4_compute_metrics_degenerate.2.2 [] 0 (by decide)

/-- Claim C5: every emitted result carries a finite non-negative
amount_error (the +infinity sentinel of an unresolved reconciliation is
replaced by 0 when a match is committed, and an unmatched result carries
0), so the amount_mae aggregate over matcher output is finite and
non-negative. -/
theorem claim5_amount_error_finite (preds gts : List Txn) :
    (∀ r ∈ match_transactions preds gts,
      0 ≤ r.amount_error ∧ (r.ground_truth = none → r.amount_error = 0)) ∧
    (∀ (p g : Txn) (i : ℕ), (reconcileOf p g).2 = none →
      (mkMatched p g i).amount_error = 0) ∧
    0 ≤ (compute_metrics (match_transactions preds gts) gts.length).amount_mae := by
  refine ⟨?_, ?_, ?_⟩
  · intro r hr
    refine ⟨(result_field_bounds preds gts r hr).2.2, ?_⟩
    intro hnone
    rcases (match_transactions_spec preds gts).2.2.1 r hr with ⟨_, hu⟩ | ⟨i, _, hlt, hm⟩
    · rw [hu]; simp [mkUnmatched]
    · rw [hm] at hnone
      simp [mkMatched] at hnone
  · intro p g i h
    simp [mkMatched, h]
  · by_cases h : match_transactions preds gts = []
    · rw [h]; simp [compute_metrics, zeroMetrics]
    · simp only [compute_metrics, h, if_false, ne_eq, not_false_eq_true, if_true]
      split_ifs with hmc
      · exact le_rfl
      · apply div_nonneg
        · apply List.sum_nonneg
          intro x hx
          obtain ⟨m, hm, rfl⟩ := List.mem_map.mp hx
          exact (result_field_bounds preds gts m (List.mem_of_mem_filter hm)).2.2
        · positivity

/-- Witness for C5: the worked example's committed result has a
non-negative amount error. -/
theorem claim5_witness : 0 ≤ (mkMatched exTxn exGt 0).amount_error :=
  ((claim5_amount_error_finite [exTxn] [exGt]).1 _ (by decide)).1

/-- Claim C6: when the tight absolute rule and the one-percent relative
rule both fail and the prediction is within 0.01 of 100 times the ground
truth (on absolute values), the reconciler reports a match with the
rescaled error.  The witness instantiates the scale-ambiguity scenario:
prediction 2850 against truth 28.50 matches with reported error 0. -/
theorem claim6_scale_100x (a b : ℚ)
    (h1 : ¬ |(|a| - |b|)| < 1/100)
    (h2 : ¬ (|b| ≠ 0 ∧ |(|a| - |b|)| / |b| < amount_tolerance_pct))
    (h3 : |(|a| - |b| * 100)| < 1/100) :
    reconcileAmounts (some a) (some b) = (true, some |(|a| / 100 - |b|)|) := by
  simp only [reconcileAmounts, amountCascade]
  rw [if_neg h1, if_neg h2, if_pos h3]

/-- Witness for C6: the scale-ambiguity scenario of the spec. -/
theorem claim6_witness :
    reconcileAmounts (some 2850) (some (57/2)) = (true, some 0) := by
  have h := claim6_scale_100x 2850 (57/2) (by decide) (by decide) (by decide)
  exact h.trans (by decide)

/-- Claim C7: fuzzy_match_score realizes the three-tier cascade over
text-normalized inputs — 0 when either normalized string is empty, 1 on
equality, 9/10 on a substring relation either way, and otherwise the token
Jaccard similarity (0 when either token set is empty) — its value always
lies in the unit interval, and the four reference examples evaluate as
specified. -/
theorem claim7_fuzzy_tiers :
    (∀ p t : String, 0 ≤ fuzzy_match_score p t ∧ fuzzy_match_score p t ≤ 1) ∧
    (∀ p t : String, (normalize_text p = "" ∨ normalize_text t = "") →
      fuzzy_match_score p t = 0) ∧
    (∀ p t : String, normalize_text p ≠ "" → normalize_text t ≠ "" →
      normalize_text p = normalize_text t → fuzzy_match_score p t = 1) ∧
    (∀ p t : String, normalize_text p ≠ "" → normalize_text t ≠ "" →
      normalize_text p ≠ normalize_text t →
      (hasSubstr (normalize_text p).data (normalize_text t).data ||
       hasSubstr (normalize_text t).data (normalize_text p).data) = true →
      fuzzy_match_score p t = 9/10) ∧
    (∀ p t : String, normalize_text p ≠ "" → normalize_text t ≠ "" →
      normalize_text p ≠ normalize_text t →
      (hasSubstr (normalize_text p).data (normalize_text t).data ||
       hasSubstr (normalize_text t).data (normalize_text p).data) = false →
      fuzzy_match_score p t =
        (if tokenSet (normalize_text p) = ∅ ∨ tokenSet (normalize_text t) = ∅ then 0
         else ((tokenSet (normalize_text p) ∩ tokenSet (normalize_text t)).card : ℚ) /
           ((tokenSet (normalize_text p) ∪ tokenSet (normalize_text t)).card : ℚ))) ∧
    fuzzy_match_score "Starbucks" "starbucks" = 1 ∧
    fuzzy_match_score "STARBUCKS #123" "Starbucks" = 9/10 ∧
    fuzzy_match_score "a b c" "c b d" = 1/2 ∧
    fuzzy_match_score "" "x" = 0 := by
  refine ⟨?_, ?_, ?_, ?_, ?_, by decide, by decide, by decide, by decide⟩
  · intro p t
    exact ⟨fuzzy_match_score_nonneg p t, fuzzy_match_score_le_one p t⟩
  · intro p t h
    simp only [fuzzy_match_score]
    rw [if_pos h]
  · intro p t hp ht he
    simp only [fuzzy_match_score]
    rw [if_neg (by tauto), if_pos he]
  · intro p t hp ht hne hsub
    simp only [fuzzy_match_score]
    rw [if_neg (by tauto), if_neg hne, if_pos hsub]
  · intro p t hp ht hne hsub
    simp only [fuzzy_match_score]
    rw [if_neg (by tauto), if_neg hne, if_neg (by simp [hsub])]

/-- Claim C8: normalize_date tries the fixed ordered format list and
rewrites the first success to YYYY-MM-DD — the ISO form is a fixed point,
the slash form follows day-first precedence (both shown on the ambiguous
01/02/2024 as well) — while any nonempty string no format parses is
returned unchanged, None and the empty string yield None, and the function
is total (no exception escapes). -/
theorem claim8_normalize_date :
    normalize_date_opt none = none ∧
    normalize_date_opt (some "") = none ∧
    normalize_date "2024-01-15" = some "2024-01-15" ∧
    normalize_date "15/01/2024" = some "2024-01-15" ∧
    normalize_date "01/02/2024" = some "2024-02-01" ∧
    normalize_date "not a date" = some "not a date" ∧
    (∀ s : String, s ≠ "" → firstParse (pyStrip s.data) = none →
      normalize_date s = some s) ∧
    (∀ (s : String) (d : PDate), s ≠ "" → firstParse (pyStrip s.data) = some d →
      normalize_date s = some (fmtISO d)) := by
  refine ⟨by decide, by decide, by decide, by decide, by decide, by decide, ?_, ?_⟩
  · intro s hs hp
    simp [normalize_date, hs, hp]
  · intro s d hs hp
    simp [normalize_date, hs, hp]

/-- Witness for C8: an unparseable nonempty string passes through
unchanged. -/
theorem claim8_witness : normalize_date "2024-13-40" = some "2024-13-40" :=
  claim8_normalize_date.2.2.2.2.2.2.1 "2024-13-40" (by decide) (by decide)

/-- Claim C9: append_history appends the new run at the end and truncates
to the most recent 50 — the result never exceeds 50 entries, a history
under the cap is extended in place, and appending a 51st run to a history
of 50 keeps exactly the latest 50 with the oldest evicted. -/
theorem claim9_append_history {α : Type} :
    (∀ (runs : List α) (e : α),
      (append_history runs e).length = min (runs.length + 1) 50) ∧
    (∀ (runs : List α) (e : α), runs.length < 50 →
      append_history runs e = runs ++ [e]) ∧
    (∀ (runs : List α) (e : α), runs.length = 50 →
      append_history runs e = runs.drop 1 ++ [e]) := by
  refine ⟨?_, ?_, ?_⟩
  · intro runs e
    simp only [append_history]
    split_ifs with h <;>
      simp only [List.length_drop, List.length_append, List.length_cons,
        List.length_nil] at h ⊢ <;>
      omega
  · intro runs e h
    have hc : ¬ (runs ++ [e]).length > 50 := by
      simp only [List.length_append, List.length_cons, List.length_nil]
      omega
    simp only [append_history, if_neg hc]
  · intro runs e h
    have hc : (runs ++ [e]).length > 50 := by
      simp only [List.length_append, List.length_cons, List.length_nil]
      omega
    have hd : (runs ++ [e]).length - 50 = 1 := by
      simp only [List.length_append, List.length_cons, List.length_nil]
      omega
    simp only [append_history, if_pos hc, hd]
    exact List.drop_append_of_le_length (by omega)

/-- Witness for C9: appending a 51st run to a 50-run history keeps the
latest 50, oldest evicted. -/
theorem claim9_witness :
    append_history (List.replicate 50 (0 : ℕ)) 7 =
    (List.replicate 50 (0 : ℕ)).drop 1 ++ [7] :=
  claim9_append_history.2.2 (List.replicate 50 (0 : ℕ)) 7 (by simp)

/-- All ratio metrics of compute_metrics lie in the unit interval, given
that each match's description score is in the unit interval and that the
matched count does not exceed the ground-truth count. -/
theorem compute_metrics_bounds (ms : List TransactionMatch) (gtc : ℕ)
    (hdesc : ∀ m ∈ ms, 0 ≤ m.description_match ∧ m.description_match ≤ 1)
    (hmc : (ms.filter (fun m => m.ground_truth.isSome)).length ≤ gtc) :
    0 ≤ (compute_metrics ms gtc).precision ∧ (compute_metrics ms gtc).precision ≤ 1 ∧
    0 ≤ (compute_metrics ms gtc).recall' ∧ (compute_metrics ms gtc).recall' ≤ 1 ∧
    0 ≤ (compute_metrics ms gtc).f1 ∧ (compute_metrics ms gtc).f1 ≤ 1 ∧
    0 ≤ (compute_metrics ms gtc).date_accuracy ∧
    (compute_metrics ms gtc).date_accuracy ≤ 1 ∧
    0 ≤ (compute_metrics ms gtc).description_accuracy ∧
    (compute_metrics ms gtc).description_accuracy ≤ 1 ∧
    0 ≤ (compute_metrics ms gtc).amount_accuracy ∧
    (compute_metrics ms gtc).amount_accuracy ≤ 1 ∧
    (compute_metrics ms gtc).matched_count ≤ ms.length ∧
    (compute_metrics ms gtc).matched_count ≤ gtc := by
  by_cases h : ms = []
  · subst h
    simp [compute_metrics, zeroMetrics]
  · have hlp : 0 < ms.length := List.length_pos.mpr h
    simp only [compute_metrics, if_neg h]
    set mlist := ms.filter (fun m => m.ground_truth.isSome) with hml
    set mc := mlist.length with hmcdef
    have hle : mc ≤ ms.length := List.length_filter_le _ _
    set P : ℚ := if ms ≠ [] then (mc:ℚ)/(ms.length:ℚ) else 0 with hPdef
    set R : ℚ := if gtc ≠ 0 then (mc:ℚ)/(gtc:ℚ) else 0 with hRdef
    have hP0 : 0 ≤ P := by
      rw [hPdef, if_pos h]
      positivity
    have hP1 : P ≤ 1 := by
      rw [hPdef, if_pos h, div_le_one (by exact_mod_cast hlp)]
      exact_mod_cast hle
    have hR0 : 0 ≤ R := by
      rw [hRdef]
      split_ifs with hg
      · positivity
      · exact le_rfl
    have hR1 : R ≤ 1 := by
      rw [hRdef]
      split_ifs with hg
      · rw [div_le_one (by exact_mod_cast Nat.pos_of_ne_zero hg)]
        exact_mod_cast hmc
      · norm_num
    have hF0 : 0 ≤ (if P + R > 0 then 2 * P * R / (P + R) else 0) := by
      split_ifs with hpr
      · positivity
      · exact le_rfl
    have hF1 : (if P + R > 0 then 2 * P * R / (P + R) else 0) ≤ 1 := by
      split_ifs with hpr
      · rw [div_le_one hpr]
        nlinarith
      · norm_num
    have hratio : ∀ k : ℕ, k ≤ mc →
        (0:ℚ) ≤ (if mc ≠ 0 then (k:ℚ)/(mc:ℚ) else 0) ∧
        (if mc ≠ 0 then (k:ℚ)/(mc:ℚ) else 0) ≤ 1 := by
      intro k hk
      split_ifs with hz
      · exact ⟨by positivity, by
          rw [div_le_one (by exact_mod_cast Nat.pos_of_ne_zero hz)]
          exact_mod_cast hk⟩
      · norm_num
    have hsum0 : (0:ℚ) ≤ (mlist.map (fun m => m.description_match)).sum := by
      apply List.sum_nonneg
      intro x hx
      obtain ⟨m, hm, rfl⟩ := List.mem_map.mp hx
      exact (hdesc m (List.mem_of_mem_filter hm)).1
    have hsum1 : (mlist.map (fun m => m.description_match)).sum ≤ (mc:ℚ) := by
      have hb := List.sum_le_card_nsmul (mlist.map (fun m => m.description_match)) 1 ?_
      · rw [List.length_map] at hb
        simpa [nsmul_eq_mul] using hb
      · intro x hx
        obtain ⟨m, hm, rfl⟩ := List.mem_map.mp hx
        exact (hdesc m (List.mem_of_mem_filter hm)).2
    have hD0 : (0:ℚ) ≤ (if mc ≠ 0 then
        (mlist.map (fun m => m.description_match)).sum/(mc:ℚ) else 0) := by
      split_ifs with hz
      · exact div_nonneg hsum0 (by positivity)
      · exact le_rfl
    have hD1 : (if mc ≠ 0 then
        (mlist.map (fun m => m.description_match)).sum/(mc:ℚ) else 0) ≤ 1 := by
      split_ifs with hz
      · rw [div_le_one (by exact_mod_cast Nat.pos_of_ne_zero hz)]
        exact hsum1
      · norm_num
    refine ⟨hP0, hP1, hR0, hR1, hF0, hF1, ?_, ?_, hD0, hD1, ?_, ?_, hle, hmc⟩
    · exact (hratio _ (List.countP_le_length _)).1
    · exact (hratio _ (List.countP_le_length _)).2
    · exact (hratio _ (List.countP_le_length _)).1
    · exact (hratio _ (List.countP_le_length _)).2

/-- Claim C10: on matcher output with the matched ground-truth cardinality,
every ratio metric of compute_metrics — precision, recall, f1,
date_accuracy, description_accuracy, amount_accuracy — lies in the unit
interval, and matched_count exceeds neither the number of results nor the
number of ground-truth records. -/
theorem claim10_metric_bounds (preds gts : List Txn) :
    0 ≤ (metricsOf preds gts).precision ∧ (metricsOf preds gts).precision ≤ 1 ∧
    0 ≤ (metricsOf preds gts).recall' ∧ (metricsOf preds gts).recall' ≤ 1 ∧
    0 ≤ (metricsOf preds gts).f1 ∧ (metricsOf preds gts).f1 ≤ 1 ∧
    0 ≤ (metricsOf preds gts).date_accuracy ∧
    (metricsOf preds gts).date_accuracy ≤ 1 ∧
    0 ≤ (metricsOf preds gts).description_accuracy ∧
    (metricsOf preds gts).description_accuracy ≤ 1 ∧
    0 ≤ (metricsOf preds gts).amount_accuracy ∧
    (metricsOf preds gts).amount_accuracy ≤ 1 ∧
    (metricsOf preds gts).matched_count ≤ (match_transactions preds gts).length ∧
    (metricsOf preds gts).matched_count ≤ gts.length :=
  compute_metrics_bounds (match_transactions preds gts) gts.length
    (fun m hm => ⟨(result_field_bounds preds gts m hm).1,
      (result_field_bounds preds gts m hm).2.1⟩)
    (matched_count_le_gt preds gts)

/-- Witness for C7: the substring tier at the spec's truncated-merchant
example. -/
theorem claim7_witness : fuzzy_match_score "STARBUCKS #123" "Starbucks" = 9/10 :=
  claim7_fuzzy_tiers.2.2.2.1 "STARBUCKS #123" "Starbucks"
    (by decide) (by decide) (by decide) (by decide)
